import Mathlib

/-!
Verification of the cumulative export pipeline of `SpeedExp.py`.

The numeric control logic of `process_video_cumulative` (speed-up planning,
the duration-convergence correction loop, the encoder fallback loop) and the
filesystem helpers `get_unique_filename` and `verify_output_file` are embedded
shallowly.  Python floats are modelled as rationals (`ℚ`); the external
transcoder and prober are modelled as a deterministic measurement oracle
`measure : ℚ → ℚ → ℚ` giving the probed duration of the file produced by a
transcode at a given `(tempo, video_pts)` pair, and the external encoder runs
are modelled as an oracle indexed by the candidate position.  Exceptions are
modelled with `Except String`.
-/

/-- `MAX_SPEED_RETRIES = 10` (SpeedExp.py line 89). -/
def MAX_SPEED_RETRIES : Nat := 10

/-- `get_file_extension` (SpeedExp.py lines 91-93). -/
def get_file_extension (smooth_mode : Bool) : String :=
  if smooth_mode then ".mov" else ".mp4"

/-- Initial transform planning for the pitch-enabled path
(SpeedExp.py lines 1017, 1030-1031):
`target_sped_duration = original_video_duration / 2.0`,
`initial_tempo = input_duration / target_sped_duration`,
`initial_video_pts = target_sped_duration / input_duration`.
Python raises `ZeroDivisionError` on a zero divisor; the first division fails
when the target is zero, the second when the input duration is zero.  There is
no guard on non-positive input durations in the source. -/
def plan_initial (input_duration original_video_duration : ℚ) :
    Except String (ℚ × ℚ) :=
  let target_sped_duration := original_video_duration / 2
  if target_sped_duration = 0 then
    Except.error "ZeroDivisionError: float division by zero"
  else
    let initial_tempo := input_duration / target_sped_duration
    if input_duration = 0 then
      Except.error "ZeroDivisionError: float division by zero"
    else
      Except.ok (initial_tempo, target_sped_duration / input_duration)

/-- One attempt of the convergence loop: the parameters used for the
transcode, the measured duration of its output and the duration error. -/
structure Attempt where
  tempo : ℚ
  videoPts : ℚ
  duration : ℚ
  error : ℚ
deriving DecidableEq, Repr

/-- Decision taken after measuring one attempt. -/
inductive StepDecision
  | converged
  | exhausted
  | retry
deriving DecidableEq, Repr

/-- Terminal shape of the convergence loop. -/
inductive Outcome
  | converged
  | exhaustedRerun
  | exhaustedLast
  | budgetExhausted
deriving DecidableEq, Repr

/-- Result of the convergence loop: the list of loop attempts in order, the
terminal shape, the final `tempo`/`video_pts` variables, the duration of the
file left behind for the duplication stage, whether the extra best-parameter
re-run happened, and the final best attempt record. -/
structure CorrResult where
  trace : List Attempt
  outcome : Outcome
  finalTempo : ℚ
  finalVideoPts : ℚ
  acceptedDuration : ℚ
  rerun : Bool
  best : Option Attempt
deriving DecidableEq, Repr

/-- `if duration_error < best_error: best_... = ...`
(SpeedExp.py lines 1091-1095).  `best_error` starts as infinity, so the first
attempt always becomes the best; this is the `none` case. -/
def update_best : Option Attempt → Attempt → Attempt
  | none, cur => cur
  | some b, cur => if cur.error < b.error then cur else b

/-- `precision_threshold = min(0.001, frame_duration / 2)` with
`frame_duration = 1.0 / original_fps` (SpeedExp.py lines 1043, 1097). -/
def precision_threshold (original_fps : ℚ) : ℚ :=
  let frame_duration := 1 / original_fps
  min (1/1000) (frame_duration / 2)

/-- The branch taken after one measurement (SpeedExp.py lines 1099-1117):
converge when `duration_error <= precision_threshold`; otherwise stop with the
best result when `attempt > 0 and duration_error >= best_error and
attempt >= 3`; otherwise retry.  `bestError` is the value of `best_error`
after the keep-best update, exactly as in the source. -/
def step_decision (e bestError threshold : ℚ) (attempt : Nat) : StepDecision :=
  if e ≤ threshold then .converged
  else if 0 < attempt ∧ bestError ≤ e ∧ 3 ≤ attempt then .exhausted
  else .retry

/-- Retry parameter recomputation (SpeedExp.py lines 1119-1128):
`correction_factor = actual_sped_duration / target_sped_duration`;
`tempo = tempo * correction_factor`; `video_pts = 1.0 / tempo`;
`tempo = max(0.5, min(tempo, 100.0))`;
`video_pts = max(0.01, min(video_pts, 2.0))`.
The reciprocal is taken before the clamps, as in the source. -/
def retry_update (tempo actual target : ℚ) : ℚ × ℚ :=
  let correction_factor := actual / target
  let tempo2 := tempo * correction_factor
  let video_pts2 := 1 / tempo2
  (max (1/2) (min tempo2 100), max (1/100) (min video_pts2 2))

/-- The convergence loop `for attempt in range(MAX_SPEED_RETRIES)`
(SpeedExp.py lines 1051-1133).  `fuel` is the number of loop iterations left,
`attempt` the current index, `best` the running best record (`none` encodes
`best_error = inf`), and the last argument the duration of the most recently
produced temporary file (probed again after the loop at line 1130).  On the
stagnation stop the source re-runs the transcode once with the best
parameters when `best_duration != actual_sped_duration` (lines 1107-1116). -/
def corrLoop (measure : ℚ → ℚ → ℚ) (target threshold : ℚ) :
    Nat → Nat → ℚ → ℚ → Option Attempt → ℚ → CorrResult
  | 0, _, tempo, videoPts, best, lastDur =>
      ⟨[], .budgetExhausted, tempo, videoPts, lastDur, false, best⟩
  | fuel+1, attempt, tempo, videoPts, best, _ =>
      let d := measure tempo videoPts
      let e := |d - target|
      let cur : Attempt := ⟨tempo, videoPts, d, e⟩
      let b := update_best best cur
      match step_decision e b.error threshold attempt with
      | .converged => ⟨[cur], .converged, tempo, videoPts, d, false, some b⟩
      | .exhausted =>
          if b.duration = d then
            ⟨[cur], .exhaustedLast, tempo, videoPts, d, false, some b⟩
          else
            ⟨[cur], .exhaustedRerun, b.tempo, b.videoPts,
              measure b.tempo b.videoPts, true, some b⟩
      | .retry =>
          let next := retry_update tempo d target
          let r := corrLoop measure target threshold fuel (attempt + 1)
            next.1 next.2 (some b) d
          ⟨cur :: r.trace, r.outcome, r.finalTempo, r.finalVideoPts,
            r.acceptedDuration, r.rerun, r.best⟩

/-- All transcoder invocations of a corrector run, in order: the loop attempts
followed by the best-parameter re-run when it happened. -/
def CorrResult.calls (r : CorrResult) : List (ℚ × ℚ) :=
  r.trace.map (fun a => (a.tempo, a.videoPts)) ++
    (if r.rerun then [(r.finalTempo, r.finalVideoPts)] else [])

/-- The pitch-enabled convergence corrector (SpeedExp.py lines 1016-1133):
initial parameters from the unclamped plan, target `original / 2`, retry
budget `MAX_SPEED_RETRIES`, attempt index starting at 0, no best yet. -/
def speedup_corrector (measure : ℚ → ℚ → ℚ)
    (input_duration original_video_duration original_fps : ℚ) : CorrResult :=
  let target_sped_duration := original_video_duration / 2
  corrLoop measure target_sped_duration (precision_threshold original_fps)
    MAX_SPEED_RETRIES 0
    (input_duration / target_sped_duration)
    (target_sped_duration / input_duration) none 0

/-- Result of the whole speed-up stage (step 1/3 of
`process_video_cumulative`). -/
structure StageResult where
  finalTempo : ℚ
  finalVideoPts : ℚ
  spedDuration : ℚ
  callsMade : List (ℚ × ℚ)
  correctionLoopRan : Bool
  corr : Option CorrResult
deriving DecidableEq, Repr

/-- The speed-up stage dispatch (SpeedExp.py lines 1016 and 1135-1174):
pitch-enabled exports plan and run the correction loop; with pitch mode
disabled the source sets `tempo = 2.0`, `video_pts = 0.5` and issues exactly
one speed-up invocation, with no correction loop. -/
def speedup_stage (measure : ℚ → ℚ → ℚ)
    (enable_pitch enable_special_pitch : Bool)
    (input_duration original_video_duration original_fps : ℚ) :
    Except String StageResult :=
  if enable_pitch || enable_special_pitch then
    match plan_initial input_duration original_video_duration with
    | .error msg => .error msg
    | .ok _ =>
        let r := speedup_corrector measure input_duration
          original_video_duration original_fps
        .ok ⟨r.finalTempo, r.finalVideoPts, r.acceptedDuration, r.calls,
          true, some r⟩
  else
    .ok ⟨2, 1/2, measure 2 (1/2), [(2, 1/2)], false, none⟩

/-- Facts about a candidate output file, as seen by `verify_output_file`:
existence, size in KB, whether the ffprobe call succeeded, and the probed
duration. -/
structure EncodeOutput where
  fileExists : Bool
  sizeKb : ℚ
  probeOk : Bool
  duration : ℚ
deriving DecidableEq, Repr

/-- `verify_output_file` (SpeedExp.py lines 640-667): missing file, then the
size check only when `min_size_kb > 0`, then the probe, then non-positive
duration; otherwise valid. -/
def verify_output_file (f : EncodeOutput) (min_size_kb : ℚ) : Bool × String :=
  if f.fileExists = false then (false, "File not created")
  else if 0 < min_size_kb ∧ f.sizeKb < min_size_kb then (false, "File too small")
  else if f.probeOk = false then (false, "FFprobe failed")
  else if f.duration ≤ 0 then (false, "Invalid duration")
  else (true, "Valid")

/-- One encoder candidate of `select_codec_configs`
(SpeedExp.py lines 159-214). -/
structure CodecConfig where
  name : String
  codec : String
  params : List String
deriving DecidableEq, Repr

/-- Outcome of one external encoder invocation: its return code and the facts
about the file it left at the output path. -/
structure EncodeRun where
  returncode : Int
  output : EncodeOutput
deriving DecidableEq, Repr

/-- Observable filesystem events of the encoder fallback loop. -/
inductive EncodeEvent
  | deleteStale (idx : Nat)
  | invoke (idx : Nat)
deriving DecidableEq, Repr

/-- Result of the encoder fallback loop: the events in order and the index of
the accepted candidate, when any. -/
structure EncodeResult where
  events : List EncodeEvent
  accepted : Option Nat
deriving DecidableEq, Repr

/-- A candidate is accepted when its invocation returns 0 and its output
passes `verify_output_file(output_path)` — called with the default
`min_size_kb = 0`, so the size check is skipped
(SpeedExp.py lines 1317-1321). -/
def encode_accepts (runs : Nat → EncodeRun) (i : Nat) : Bool :=
  (runs i).returncode == 0 && (verify_output_file (runs i).output 0).1

/-- The encoder fallback loop body (SpeedExp.py lines 1242-1335): for each
remaining candidate, delete any stale file at the output path, invoke the
encoder, and stop at the first accepted candidate. -/
def encode_loop (runs : Nat → EncodeRun) : Nat → Nat → EncodeResult
  | 0, _ => ⟨[], none⟩
  | n+1, i =>
      let evs := [EncodeEvent.deleteStale i, EncodeEvent.invoke i]
      if encode_accepts runs i then ⟨evs, some i⟩
      else
        let rest := encode_loop runs n (i + 1)
        ⟨evs ++ rest.events, rest.accepted⟩

/-- The events generated by trying `k` consecutive candidates starting at
index `s`: each candidate is preceded by its stale-file deletion. -/
def evlist : Nat → Nat → List EncodeEvent
  | _, 0 => []
  | s, k+1 => EncodeEvent.deleteStale s :: EncodeEvent.invoke s :: evlist (s+1) k

/-- The overlay-and-encode fallback (SpeedExp.py lines 1238-1337): run the
candidate loop over the config list; exhausting all candidates raises
`RuntimeError("All codecs failed: ...")` (line 1337). -/
def overlay_encode (runs : Nat → EncodeRun) (configs : List CodecConfig) :
    Except String EncodeResult :=
  let r := encode_loop runs configs.length 0
  match r.accepted with
  | some _ => .ok r
  | none => .error "All codecs failed"

/-- The suffix search of `get_unique_filename` (SpeedExp.py lines 618-627):
try `base-oID`, return it when free, else increment and raise once `oID`
exceeds 999.  `fuel` makes the `while True` loop structural; it is started at
999, which the 999-bound makes sufficient. -/
def unique_from (taken : String → Bool) (base_name ext : String) :
    Nat → Nat → Except String (String × String)
  | 0, _ => Except.error "Too many duplicate files"
  | fuel+1, oID =>
      let unique_name := base_name ++ "-" ++ toString oID
      let unique_path := unique_name ++ ext
      if taken unique_path = false then Except.ok (unique_path, unique_name)
      else if 999 < oID + 1 then Except.error "Too many duplicate files"
      else unique_from taken base_name ext fuel (oID + 1)

/-- `get_unique_filename` (SpeedExp.py lines 611-627).  The filesystem is the
oracle `taken`; paths are modelled without the directory prefix. -/
def get_unique_filename (taken : String → Bool) (base_name : String)
    (smooth_mode : Bool) : Except String (String × String) :=
  let ext := get_file_extension smooth_mode
  let output_path := base_name ++ ext
  if taken output_path = false then Except.ok (output_path, base_name)
  else unique_from taken base_name ext 999 1

/-- Measurement oracle under which the first attempt measures exactly on
target: with it the corrector converges on attempt 0. -/
def measure_exact : ℚ → ℚ → ℚ := fun t _ => 5 * t / 2

/-- Measurement oracle that overshoots by half: with it every attempt's error
grows, exercising the retry and stagnation paths. -/
def measure_over : ℚ → ℚ → ℚ := fun t _ => 3 * t

/-- Encoder-run oracle where the first candidate's invocation fails, the
second produces a file the prober rejects, and the third is valid. -/
def fallback_runs : Nat → EncodeRun := fun i =>
  if i = 0 then ⟨1, ⟨false, 0, false, 0⟩⟩
  else if i = 1 then ⟨0, ⟨true, 500, false, 0⟩⟩
  else ⟨0, ⟨true, 500, true, 5⟩⟩

/-- Encoder-run oracle that always returns 0 and leaves a 1-byte-scale file
with a positive probed duration. -/
def tiny_runs : Nat → EncodeRun := fun _ => ⟨0, ⟨true, 1/1000, true, 5⟩⟩

/-- The three H.264 candidates of the normal-mode config list
(SpeedExp.py lines 181-198). -/
def h264_configs : List CodecConfig :=
  [⟨"H.264 Baseline", "libx264",
      ["-profile:v", "baseline", "-level", "3.0", "-pix_fmt", "yuv420p",
        "-preset", "fast"]⟩,
   ⟨"H.264 Main", "libx264",
      ["-profile:v", "main", "-pix_fmt", "yuv420p", "-preset", "fast"]⟩,
   ⟨"H.264 Ultrafast", "libx264",
      ["-pix_fmt", "yuv420p", "-preset", "ultrafast"]⟩]

/-- The last-resort candidate of the config list (SpeedExp.py lines 207-211). -/
def one_config : List CodecConfig :=
  [⟨"Fallback", "libx264", ["-pix_fmt", "yuv420p"]⟩]

/-- Filesystem oracle with the base path and the first suffixed path taken. -/
def collide_two : String → Bool :=
  fun s => s == "export-1.mp4" || s == "export-1-1.mp4"

/-! ### Helper lemmas -/

/-- Well-formedness of an attempt record with respect to the measurement
oracle and the target: its fields are what the loop body computes. -/
def attempt_wf (m : ℚ → ℚ → ℚ) (tg : ℚ) (a : Attempt) : Prop :=
  a.duration = m a.tempo a.videoPts ∧ a.error = |a.duration - tg|

lemma update_best_error_le_cur (best : Option Attempt) (cur : Attempt) :
    (update_best best cur).error ≤ cur.error := by
  cases best with
  | none => simp [update_best]
  | some b =>
      simp only [update_best]
      split
      · exact le_refl _
      · exact le_of_not_lt (by assumption)

lemma update_best_error_le_prev (b : Option Attempt) (b0 cur : Attempt)
    (h : b = some b0) : (update_best b cur).error ≤ b0.error := by
  subst h
  simp only [update_best]
  split
  · exact le_of_lt (by assumption)
  · exact le_refl _

lemma update_best_wf (m : ℚ → ℚ → ℚ) (tg : ℚ) (best : Option Attempt)
    (cur : Attempt) (hb : ∀ b0, best = some b0 → attempt_wf m tg b0)
    (hc : attempt_wf m tg cur) : attempt_wf m tg (update_best best cur) := by
  cases best with
  | none => simpa [update_best] using hc
  | some b =>
      simp only [update_best]
      split
      · exact hc
      · exact hb b rfl

lemma step_decision_converged_iff (e b thr : ℚ) (a : Nat) :
    step_decision e b thr a = .converged ↔ e ≤ thr := by
  unfold step_decision
  split
  · simp [*]
  · split <;> simp [*]

lemma step_decision_zero_ne_exhausted (e b thr : ℚ) :
    step_decision e b thr 0 ≠ .exhausted := by
  unfold step_decision
  split
  · simp
  · split
    · rename_i h
      exact absurd h.1 (lt_irrefl 0)
    · simp

lemma step_decision_retry_lt (e b thr : ℚ) (a : Nat)
    (hbe : b ≤ e) (h : step_decision e b thr a = .retry) : a < 3 := by
  unfold step_decision at h
  by_contra hge
  push_neg at hge
  rw [if_neg, if_pos ⟨by omega, hbe, by omega⟩] at h
  · exact StepDecision.noConfusion h
  · intro hc
    rw [if_pos hc] at h
    exact StepDecision.noConfusion h

lemma corrLoop_succ (m : ℚ → ℚ → ℚ) (tg thr : ℚ) (fuel a : Nat) (t p : ℚ)
    (best : Option Attempt) (ld : ℚ) :
    corrLoop m tg thr (fuel+1) a t p best ld =
      (let d := m t p
       let e := |d - tg|
       let cur : Attempt := ⟨t, p, d, e⟩
       let b := update_best best cur
       match step_decision e b.error thr a with
       | .converged => ⟨[cur], .converged, t, p, d, false, some b⟩
       | .exhausted =>
           if b.duration = d then
             ⟨[cur], .exhaustedLast, t, p, d, false, some b⟩
           else
             ⟨[cur], .exhaustedRerun, b.tempo, b.videoPts,
               m b.tempo b.videoPts, true, some b⟩
       | .retry =>
           let next := retry_update t d tg
           let r := corrLoop m tg thr fuel (a+1) next.1 next.2 (some b) d
           ⟨cur :: r.trace, r.outcome, r.finalTempo, r.finalVideoPts,
             r.acceptedDuration, r.rerun, r.best⟩) := rfl

lemma step_decision_thr_lt (e b thr : ℚ) (a : Nat)
    (h : step_decision e b thr a ≠ .converged) : thr < e :=
  not_le.mp (fun hc => h ((step_decision_converged_iff e b thr a).2 hc))

lemma corrLoop_trace_length (m : ℚ → ℚ → ℚ) (tg thr : ℚ) :
    ∀ (fuel a : Nat) (t p : ℚ) (best : Option Attempt) (ld : ℚ),
      ((corrLoop m tg thr fuel a t p best ld).trace).length ≤ max (4 - a) 1 := by
  intro fuel
  induction fuel with
  | zero => intro a t p best ld; simp [corrLoop]
  | succ n ih =>
      intro a t p best ld
      simp only [corrLoop_succ]
      split
      · simp
      · split <;> simp
      · rename_i hdec
        have hbe : (update_best best ⟨t, p, m t p, |m t p - tg|⟩).error
            ≤ |m t p - tg| :=
          update_best_error_le_cur best ⟨t, p, m t p, |m t p - tg|⟩
        have ha : a < 3 := step_decision_retry_lt _ _ _ _ hbe hdec
        have hlen := ih (a + 1)
          (retry_update t (m t p) tg).1 (retry_update t (m t p) tg).2
          (some (update_best best ⟨t, p, m t p, |m t p - tg|⟩)) (m t p)
        simp only [List.length_cons]
        omega

lemma corrLoop_trace_head (m : ℚ → ℚ → ℚ) (tg thr : ℚ) (fuel a : Nat)
    (t p : ℚ) (best : Option Attempt) (ld : ℚ) :
    ((corrLoop m tg thr (fuel+1) a t p best ld).trace).head? =
      some ⟨t, p, m t p, |m t p - tg|⟩ := by
  simp only [corrLoop_succ]
  split
  · simp
  · split <;> simp
  · simp

lemma corrLoop_trace_adj (m : ℚ → ℚ → ℚ) (tg thr : ℚ) :
    ∀ (fuel a : Nat) (t p : ℚ) (best : Option Attempt) (ld : ℚ)
      (k : Nat) (A B : Attempt),
      ((corrLoop m tg thr fuel a t p best ld).trace).get? k = some A →
      ((corrLoop m tg thr fuel a t p best ld).trace).get? (k+1) = some B →
      B.tempo = (retry_update A.tempo A.duration tg).1 ∧
      B.videoPts = (retry_update A.tempo A.duration tg).2 := by
  intro fuel
  induction fuel with
  | zero =>
      intro a t p best ld k A B hA hB
      simp [corrLoop] at hA
  | succ n ih =>
      intro a t p best ld k A B hA hB
      simp only [corrLoop_succ] at hA hB
      revert hA hB
      split
      · intro hA hB
        simp at hB
      · split <;> intro hA hB <;> simp at hB
      · intro hA hB
        cases k with
        | zero =>
            simp at hA hB
            cases n with
            | zero => simp [corrLoop] at hB
            | succ n2 =>
                have hh := corrLoop_trace_head m tg thr n2 (a + 1)
                  (retry_update t (m t p) tg).1 (retry_update t (m t p) tg).2
                  (some (update_best best ⟨t, p, m t p, |m t p - tg|⟩)) (m t p)
                rw [List.head?_eq_getElem?, hB] at hh
                cases hh
                subst hA
                exact ⟨rfl, rfl⟩
        | succ k2 =>
            simp only [List.get?_cons_succ] at hA hB
            exact ih (a + 1) (retry_update t (m t p) tg).1
              (retry_update t (m t p) tg).2
              (some (update_best best ⟨t, p, m t p, |m t p - tg|⟩)) (m t p)
              k2 A B hA hB

lemma corrLoop_converged_acc (m : ℚ → ℚ → ℚ) (tg thr : ℚ) :
    ∀ (fuel a : Nat) (t p : ℚ) (best : Option Attempt) (ld : ℚ),
      (corrLoop m tg thr fuel a t p best ld).outcome = .converged →
      |(corrLoop m tg thr fuel a t p best ld).acceptedDuration - tg| ≤ thr := by
  intro fuel
  induction fuel with
  | zero =>
      intro a t p best ld h
      simp [corrLoop] at h
  | succ n ih =>
      intro a t p best ld h
      simp only [corrLoop_succ] at h ⊢
      revert h
      split
      · rename_i hdec
        intro _
        simpa using (step_decision_converged_iff _ _ _ _).1 hdec
      · split <;> intro h <;> simp at h
      · intro h
        exact ih (a + 1) (retry_update t (m t p) tg).1
          (retry_update t (m t p) tg).2
          (some (update_best best ⟨t, p, m t p, |m t p - tg|⟩)) (m t p) h

lemma corrLoop_rerun_spec (m : ℚ → ℚ → ℚ) (tg thr : ℚ) :
    ∀ (fuel a : Nat) (t p : ℚ) (best : Option Attempt) (ld : ℚ),
      (corrLoop m tg thr fuel a t p best ld).outcome = .exhaustedRerun →
      (corrLoop m tg thr fuel a t p best ld).rerun = true ∧
      ((corrLoop m tg thr fuel a t p best ld).best).map (fun bb => bb.tempo) =
        some (corrLoop m tg thr fuel a t p best ld).finalTempo ∧
      ((corrLoop m tg thr fuel a t p best ld).best).map (fun bb => bb.videoPts) =
        some (corrLoop m tg thr fuel a t p best ld).finalVideoPts ∧
      ((corrLoop m tg thr fuel a t p best ld).best).map
          (fun bb => m bb.tempo bb.videoPts) =
        some (corrLoop m tg thr fuel a t p best ld).acceptedDuration := by
  intro fuel
  induction fuel with
  | zero =>
      intro a t p best ld h
      simp [corrLoop] at h
  | succ n ih =>
      intro a t p best ld h
      simp only [corrLoop_succ] at h ⊢
      revert h
      split
      · intro h; simp at h
      · split <;> intro h
        · simp at h
        · simp
      · intro h
        exact ih (a + 1) (retry_update t (m t p) tg).1
          (retry_update t (m t p) tg).2
          (some (update_best best ⟨t, p, m t p, |m t p - tg|⟩)) (m t p) h

lemma corrLoop_last_spec (m : ℚ → ℚ → ℚ) (tg thr : ℚ) :
    ∀ (fuel a : Nat) (t p : ℚ) (best : Option Attempt) (ld : ℚ),
      (corrLoop m tg thr fuel a t p best ld).outcome = .exhaustedLast →
      (corrLoop m tg thr fuel a t p best ld).rerun = false := by
  intro fuel
  induction fuel with
  | zero =>
      intro a t p best ld h
      simp [corrLoop]
  | succ n ih =>
      intro a t p best ld h
      simp only [corrLoop_succ] at h ⊢
      revert h
      split
      · intro h; simp
      · split <;> intro h
        · simp
        · simp at h
      · intro h
        exact ih (a + 1) (retry_update t (m t p) tg).1
          (retry_update t (m t p) tg).2
          (some (update_best best ⟨t, p, m t p, |m t p - tg|⟩)) (m t p) h

lemma corrLoop_acc_le_best (m : ℚ → ℚ → ℚ) (tg thr : ℚ) :
    ∀ (fuel a : Nat) (t p : ℚ) (b : Attempt) (ld : ℚ),
      a ≤ 3 → 4 - a ≤ fuel →
      attempt_wf m tg b → thr < b.error →
      |(corrLoop m tg thr fuel a t p (some b) ld).acceptedDuration - tg|
        ≤ (update_best (some b) ⟨t, p, m t p, |m t p - tg|⟩).error := by
  intro fuel
  induction fuel with
  | zero =>
      intro a t p b ld ha hfuel hwf hthr
      omega
  | succ n ih =>
      intro a t p b ld ha hfuel hwf hthr
      have hwf' : attempt_wf m tg
          (update_best (some b) ⟨t, p, m t p, |m t p - tg|⟩) :=
        update_best_wf m tg (some b) ⟨t, p, m t p, |m t p - tg|⟩
          (fun b0 hb0 => by cases hb0; exact hwf) ⟨rfl, rfl⟩
      simp only [corrLoop_succ]
      split
      · rename_i hdec
        have he : |m t p - tg| ≤ thr :=
          (step_decision_converged_iff _ _ _ _).1 hdec
        have hlt : (⟨t, p, m t p, |m t p - tg|⟩ : Attempt).error < b.error :=
          lt_of_le_of_lt he hthr
        simp only [update_best, if_pos hlt]
        exact le_refl _
      · split
        · rename_i hcond
          rw [hwf'.2, hcond]
        · rw [hwf'.2, ← hwf'.1]
      · rename_i hdec
        have hbe : (update_best (some b) ⟨t, p, m t p, |m t p - tg|⟩).error
            ≤ |m t p - tg| :=
          update_best_error_le_cur (some b) ⟨t, p, m t p, |m t p - tg|⟩
        have ha3 : a < 3 := step_decision_retry_lt _ _ _ _ hbe hdec
        have hne : step_decision (|m t p - tg|)
            ((update_best (some b) ⟨t, p, m t p, |m t p - tg|⟩).error) thr a
            ≠ .converged := by rw [hdec]; simp
        have hthr_e : thr < |m t p - tg| :=
          step_decision_thr_lt _ _ _ _ hne
        have hthr' : thr <
            (update_best (some b) ⟨t, p, m t p, |m t p - tg|⟩).error := by
          simp only [update_best]
          split
          · exact hthr_e
          · exact hthr
        exact le_trans
          (ih (a + 1) (retry_update t (m t p) tg).1 (retry_update t (m t p) tg).2
            (update_best (some b) ⟨t, p, m t p, |m t p - tg|⟩) (m t p)
            (by omega) (by omega) hwf' hthr')
          (update_best_error_le_prev _ _ _ rfl)

lemma encode_loop_ok (runs : Nat → EncodeRun) :
    ∀ (i n s : Nat), i < n → encode_accepts runs (s + i) = true →
      (∀ j, j < i → encode_accepts runs (s + j) = false) →
      encode_loop runs n s = ⟨evlist s (i + 1), some (s + i)⟩ := by
  intro i
  induction i with
  | zero =>
      intro n s hn hacc hprev
      cases n with
      | zero => omega
      | succ n2 =>
          simp only [Nat.add_zero] at hacc
          simp [encode_loop, hacc, evlist]
  | succ i2 ih =>
      intro n s hn hacc hprev
      cases n with
      | zero => omega
      | succ n2 =>
          have h0 : encode_accepts runs s = false := by
            have h := hprev 0 (by omega)
            simpa using h
          have hacc2 : encode_accepts runs (s + 1 + i2) = true := by
            have h2 : s + 1 + i2 = s + (i2 + 1) := by omega
            rw [h2]; exact hacc
          have hprev2 : ∀ j, j < i2 → encode_accepts runs (s + 1 + j) = false := by
            intro j hj
            have h2 : s + 1 + j = s + (j + 1) := by omega
            rw [h2]; exact hprev (j + 1) (by omega)
          have hrec := ih n2 (s + 1) (by omega) hacc2 hprev2
          simp only [encode_loop, h0, Bool.false_eq_true, if_false, hrec]
          simp [evlist]
          omega

lemma encode_loop_none (runs : Nat → EncodeRun) :
    ∀ (n s : Nat), (∀ j, j < n → encode_accepts runs (s + j) = false) →
      (encode_loop runs n s).accepted = none := by
  intro n
  induction n with
  | zero => intro s h; simp [encode_loop]
  | succ n2 ih =>
      intro s h
      have h0 : encode_accepts runs s = false := by
        have hh := h 0 (by omega)
        simpa using hh
      simp only [encode_loop, h0, Bool.false_eq_true, if_false]
      exact ih (s + 1) (fun j hj => by
        have h2 : s + 1 + j = s + (j + 1) := by omega
        rw [h2]; exact h (j + 1) (by omega))

lemma unique_from_finds (taken : String → Bool) (base ext : String) (k : Nat) :
    ∀ (fuel oID : Nat), oID ≤ k → k ≤ 999 → 1000 - oID ≤ fuel →
      taken (base ++ "-" ++ toString k ++ ext) = false →
      (∀ j, oID ≤ j → j < k → taken (base ++ "-" ++ toString j ++ ext) = true) →
      unique_from taken base ext fuel oID =
        .ok (base ++ "-" ++ toString k ++ ext, base ++ "-" ++ toString k) := by
  intro fuel
  induction fuel with
  | zero =>
      intro oID h1 h2 h3 hfree hprev
      omega
  | succ f ih =>
      intro oID h1 h2 h3 hfree hprev
      by_cases heq : oID = k
      · subst heq
        simp [unique_from, hfree]
      · have hlt : oID < k := by omega
        have htaken : taken (base ++ "-" ++ toString oID ++ ext) = true :=
          hprev oID (le_refl oID) hlt
        simp only [unique_from, htaken]
        rw [if_neg (by simp), if_neg (by omega)]
        exact ih (oID + 1) (by omega) h2 (by omega) hfree
          (fun j hj1 hj2 => hprev j (by omega) hj2)

lemma unique_from_exhaust (taken : String → Bool) (base ext : String) :
    ∀ (fuel oID : Nat), 1 ≤ oID → oID ≤ 999 → 1000 - oID ≤ fuel →
      (∀ j, oID ≤ j → j ≤ 999 → taken (base ++ "-" ++ toString j ++ ext) = true) →
      unique_from taken base ext fuel oID =
        .error "Too many duplicate files" := by
  intro fuel
  induction fuel with
  | zero =>
      intro oID h1 h2 h3 hall
      omega
  | succ f ih =>
      intro oID h1 h2 h3 hall
      have htaken : taken (base ++ "-" ++ toString oID ++ ext) = true :=
        hall oID (le_refl oID) h2
      simp only [unique_from, htaken]
      rw [if_neg (by simp)]
      by_cases hend : oID = 999
      · rw [if_pos (by omega)]
      · rw [if_neg (by omega)]
        exact ih (oID + 1) (by omega) (by omega) (by omega)
          (fun j hj1 hj2 => hall j (by omega) hj2)

/-- Concrete evaluation: under `measure_exact` the corrector converges on the
first attempt. -/
lemma run_exact_outcome :
    (speedup_corrector measure_exact 10 10 30).outcome = .converged := by
  have htg : (10:ℚ) / 2 = 5 := by norm_num
  have hthr : precision_threshold 30 = 1/1000 := by
    simp only [precision_threshold]
    rw [min_eq_left (by norm_num)]
  simp only [speedup_corrector, htg, hthr]
  norm_num
  rw [show MAX_SPEED_RETRIES = 9 + 1 from rfl, corrLoop_succ]
  norm_num [measure_exact, update_best, step_decision]

/-- Concrete evaluation: under `measure_over` the error grows every retry, so
the corrector retries three times, hits the stagnation stop on attempt index
3 and re-runs the best (the first) attempt. -/
lemma run_over_eval :
    speedup_corrector measure_over 10 10 30 =
      ⟨[⟨2, 1/2, 6, 1⟩, ⟨12/5, 5/12, 36/5, 11/5⟩,
        ⟨432/125, 125/432, 1296/125, 671/125⟩,
        ⟨559872/78125, 78125/559872, 1679616/78125, 1288991/78125⟩],
       .exhaustedRerun, 2, 1/2, 6, true, some ⟨2, 1/2, 6, 1⟩⟩ := by
  have htg : (10:ℚ) / 2 = 5 := by norm_num
  have hthr : precision_threshold 30 = 1/1000 := by
    simp only [precision_threshold]
    rw [min_eq_left (by norm_num)]
  simp only [speedup_corrector, htg, hthr]
  norm_num
  rw [show MAX_SPEED_RETRIES = 9 + 1 from rfl, corrLoop_succ]
  norm_num [measure_over, update_best, step_decision, retry_update,
    min_def, max_def, abs_of_nonneg]
  rw [show (9:Nat) = 8 + 1 from rfl, corrLoop_succ]
  norm_num [measure_over, update_best, step_decision, retry_update,
    min_def, max_def, abs_of_nonneg]
  rw [show (8:Nat) = 7 + 1 from rfl, corrLoop_succ]
  norm_num [measure_over, update_best, step_decision, retry_update,
    min_def, max_def, abs_of_nonneg]
  rw [show (7:Nat) = 6 + 1 from rfl, corrLoop_succ]
  norm_num [measure_over, update_best, step_decision, retry_update,
    min_def, max_def, abs_of_nonneg]

/-! ### Claim theorems -/

/-- Claim C1: for every pitch-enabled export with positive input duration and
positive target duration, when the convergence corrector terminates, the
duration error of the accepted (final) speed-up attempt is at most the
duration error of the very first, uncorrected attempt. -/
theorem spec_c1_final_error_le_first_attempt (measure : ℚ → ℚ → ℚ)
    (inD oD fps : ℚ) (hin : 0 < inD) (hod : 0 < oD) :
    |(speedup_corrector measure inD oD fps).acceptedDuration - oD / 2|
      ≤ |measure (inD / (oD / 2)) ((oD / 2) / inD) - oD / 2| := by
  show |(corrLoop measure (oD / 2) (precision_threshold fps) MAX_SPEED_RETRIES
      0 (inD / (oD / 2)) ((oD / 2) / inD) none 0).acceptedDuration - oD / 2|
    ≤ |measure (inD / (oD / 2)) ((oD / 2) / inD) - oD / 2|
  rw [show MAX_SPEED_RETRIES = 9 + 1 from rfl]
  simp only [corrLoop_succ]
  split
  · exact le_refl _
  · rename_i hdec
    exact absurd hdec (step_decision_zero_ne_exhausted _ _ _)
  · rename_i hdec
    have hne : step_decision
        (|measure (inD / (oD / 2)) ((oD / 2) / inD) - oD / 2|)
        ((update_best none ⟨inD / (oD / 2), (oD / 2) / inD,
          measure (inD / (oD / 2)) ((oD / 2) / inD),
          |measure (inD / (oD / 2)) ((oD / 2) / inD) - oD / 2|⟩).error)
        (precision_threshold fps) 0 ≠ .converged := by
      rw [hdec]; simp
    have hthr0 : precision_threshold fps <
        |measure (inD / (oD / 2)) ((oD / 2) / inD) - oD / 2| :=
      step_decision_thr_lt _ _ _ _ hne
    have hwf : attempt_wf measure (oD / 2)
        (⟨inD / (oD / 2), (oD / 2) / inD,
          measure (inD / (oD / 2)) ((oD / 2) / inD),
          |measure (inD / (oD / 2)) ((oD / 2) / inD) - oD / 2|⟩ : Attempt) :=
      ⟨rfl, rfl⟩
    have h1 := corrLoop_acc_le_best measure (oD / 2) (precision_threshold fps)
      9 1
      (retry_update (inD / (oD / 2))
        (measure (inD / (oD / 2)) ((oD / 2) / inD)) (oD / 2)).1
      (retry_update (inD / (oD / 2))
        (measure (inD / (oD / 2)) ((oD / 2) / inD)) (oD / 2)).2
      ⟨inD / (oD / 2), (oD / 2) / inD,
        measure (inD / (oD / 2)) ((oD / 2) / inD),
        |measure (inD / (oD / 2)) ((oD / 2) / inD) - oD / 2|⟩
      (measure (inD / (oD / 2)) ((oD / 2) / inD))
      (by omega) (by omega) hwf hthr0
    exact le_trans h1 (update_best_error_le_prev _ _ _ rfl)

/-- Witness for C1 at a concrete converging run. -/
theorem spec_c1_witness :
    ((0:ℚ) < 10) ∧
    |(speedup_corrector measure_exact 10 10 30).acceptedDuration - 10 / 2|
      ≤ |measure_exact (10 / (10 / 2)) ((10 / 2) / 10) - 10 / 2| :=
  ⟨by norm_num,
   spec_c1_final_error_le_first_attempt measure_exact 10 10 30
     (by norm_num) (by norm_num)⟩

/-- Claim C2: an attempt is accepted as converged exactly when its measured
duration error satisfies error at most min(0.001 s, half of one frame
duration at the original frame rate); a converged run's accepted duration is
within that threshold of the target. -/
theorem spec_c2_convergence_threshold :
    (∀ (e b fps : ℚ) (a : Nat),
        step_decision e b (precision_threshold fps) a = .converged ↔
          e ≤ min (1/1000) ((1 / fps) / 2)) ∧
    (∀ (measure : ℚ → ℚ → ℚ) (inD oD fps : ℚ),
        (speedup_corrector measure inD oD fps).outcome = .converged →
        |(speedup_corrector measure inD oD fps).acceptedDuration - oD / 2|
          ≤ min (1/1000) ((1 / fps) / 2)) := by
  constructor
  · intro e b fps a
    exact step_decision_converged_iff e b (precision_threshold fps) a
  · intro measure inD oD fps h
    exact corrLoop_converged_acc measure (oD / 2) (precision_threshold fps)
      MAX_SPEED_RETRIES 0 (inD / (oD / 2)) ((oD / 2) / inD) none 0 h

/-- Witness for C2 at a concrete converging run. -/
theorem spec_c2_witness :
    (step_decision 0 1 (precision_threshold 30) 0 = .converged ↔
      (0:ℚ) ≤ min (1/1000) ((1 / (30:ℚ)) / 2)) ∧
    |(speedup_corrector measure_exact 10 10 30).acceptedDuration - 10 / 2|
      ≤ min (1/1000) ((1 / (30:ℚ)) / 2) :=
  ⟨spec_c2_convergence_threshold.1 0 1 30 0,
   spec_c2_convergence_threshold.2 measure_exact 10 10 30 run_exact_outcome⟩

/-- Claim C3: on every retry, the new parameters come from
correctionFactor = measured / target, tempo := tempo * correctionFactor,
timeScale := 1 / tempo, then tempo clamped to the closed interval from 0.5 to
100 and timeScale clamped to the closed interval from 0.01 to 2. -/
theorem spec_c3_retry_parameter_update (measure : ℚ → ℚ → ℚ)
    (inD oD fps : ℚ) (k : Nat) (A B : Attempt)
    (hA : ((speedup_corrector measure inD oD fps).trace).get? k = some A)
    (hB : ((speedup_corrector measure inD oD fps).trace).get? (k+1) = some B) :
    B.tempo = max (1/2) (min (A.tempo * (A.duration / (oD / 2))) 100) ∧
    B.videoPts =
      max (1/100) (min (1 / (A.tempo * (A.duration / (oD / 2)))) 2) := by
  have h := corrLoop_trace_adj measure (oD / 2) (precision_threshold fps)
    MAX_SPEED_RETRIES 0 (inD / (oD / 2)) ((oD / 2) / inD) none 0 k A B hA hB
  exact ⟨h.1, h.2⟩

/-- Witness for C3: the second attempt of a concrete retrying run has exactly
the recomputed, clamped parameters. -/
theorem spec_c3_witness :
    ((⟨12/5, 5/12, 36/5, 11/5⟩ : Attempt).tempo =
      max (1/2) (min ((⟨2, 1/2, 6, 1⟩ : Attempt).tempo *
        ((⟨2, 1/2, 6, 1⟩ : Attempt).duration / ((10:ℚ) / 2))) 100)) ∧
    (⟨12/5, 5/12, 36/5, 11/5⟩ : Attempt).videoPts =
      max (1/100) (min (1 / ((⟨2, 1/2, 6, 1⟩ : Attempt).tempo *
        ((⟨2, 1/2, 6, 1⟩ : Attempt).duration / ((10:ℚ) / 2)))) 2) :=
  spec_c3_retry_parameter_update measure_over 10 10 30 0
    ⟨2, 1/2, 6, 1⟩ ⟨12/5, 5/12, 36/5, 11/5⟩
    (by rw [run_over_eval]; rfl) (by rw [run_over_eval]; rfl)

/-- Claim C4: on an attempt of index at least 3 whose error is at least the
best error seen so far (and above the threshold), the corrector stops early;
on the re-run path it runs the transcode exactly once more with the
best-known tempo and timeScale and accepts that result, and on the
last-is-best path no extra run happens. -/
theorem spec_c4_stagnation_stop_and_best_rerun :
    (∀ (e b thr : ℚ) (a : Nat), 3 ≤ a → ¬e ≤ thr → b ≤ e →
        step_decision e b thr a = .exhausted) ∧
    (∀ (measure : ℚ → ℚ → ℚ) (inD oD fps : ℚ),
      ((speedup_corrector measure inD oD fps).outcome = .exhaustedRerun →
        (speedup_corrector measure inD oD fps).rerun = true ∧
        ((speedup_corrector measure inD oD fps).best).map
            (fun bb => bb.tempo) =
          some (speedup_corrector measure inD oD fps).finalTempo ∧
        ((speedup_corrector measure inD oD fps).best).map
            (fun bb => bb.videoPts) =
          some (speedup_corrector measure inD oD fps).finalVideoPts ∧
        ((speedup_corrector measure inD oD fps).best).map
            (fun bb => measure bb.tempo bb.videoPts) =
          some (speedup_corrector measure inD oD fps).acceptedDuration ∧
        ((speedup_corrector measure inD oD fps).calls).length =
          ((speedup_corrector measure inD oD fps).trace).length + 1) ∧
      ((speedup_corrector measure inD oD fps).outcome = .exhaustedLast →
        (speedup_corrector measure inD oD fps).rerun = false ∧
        ((speedup_corrector measure inD oD fps).calls).length =
          ((speedup_corrector measure inD oD fps).trace).length)) := by
  constructor
  · intro e b thr a ha he hbe
    unfold step_decision
    rw [if_neg he, if_pos ⟨by omega, hbe, ha⟩]
  · intro measure inD oD fps
    constructor
    · intro h
      simp only [speedup_corrector] at h ⊢
      have hs := corrLoop_rerun_spec measure (oD / 2) (precision_threshold fps)
        MAX_SPEED_RETRIES 0 (inD / (oD / 2)) ((oD / 2) / inD) none 0 h
      refine ⟨hs.1, hs.2.1, hs.2.2.1, hs.2.2.2, ?_⟩
      simp [CorrResult.calls, hs.1]
    · intro h
      simp only [speedup_corrector] at h ⊢
      have hs := corrLoop_last_spec measure (oD / 2) (precision_threshold fps)
        MAX_SPEED_RETRIES 0 (inD / (oD / 2)) ((oD / 2) / inD) none 0 h
      refine ⟨hs, ?_⟩
      simp [CorrResult.calls, hs]

/-- Witness for C4: a concrete stagnating run takes the re-run path and a
concrete decision instance stops early. -/
theorem spec_c4_witness :
    (step_decision 2 1 (1/1000 : ℚ) 3 = .exhausted) ∧
    ((speedup_corrector measure_over 10 10 30).rerun = true ∧
      ((speedup_corrector measure_over 10 10 30).best).map
          (fun bb => bb.tempo) =
        some (speedup_corrector measure_over 10 10 30).finalTempo ∧
      ((speedup_corrector measure_over 10 10 30).best).map
          (fun bb => bb.videoPts) =
        some (speedup_corrector measure_over 10 10 30).finalVideoPts ∧
      ((speedup_corrector measure_over 10 10 30).best).map
          (fun bb => measure_over bb.tempo bb.videoPts) =
        some (speedup_corrector measure_over 10 10 30).acceptedDuration ∧
      ((speedup_corrector measure_over 10 10 30).calls).length =
        ((speedup_corrector measure_over 10 10 30).trace).length + 1) :=
  ⟨spec_c4_stagnation_stop_and_best_rerun.1 2 1 (1/1000) 3 (by norm_num)
      (by norm_num) (by norm_num),
   (spec_c4_stagnation_stop_and_best_rerun.2 measure_over 10 10 30).1
      (by rw [run_over_eval])⟩

/-- Claim C5: the convergence loop performs at most MAX_SPEED_RETRIES = 10
transcode attempts and always terminates (the loop is total by construction;
both the loop-attempt count and the total invocation count including the
best-parameter re-run are bounded). -/
theorem spec_c5_retry_budget_bound (measure : ℚ → ℚ → ℚ) (inD oD fps : ℚ) :
    ((speedup_corrector measure inD oD fps).trace).length ≤ MAX_SPEED_RETRIES ∧
    ((speedup_corrector measure inD oD fps).calls).length ≤
      MAX_SPEED_RETRIES := by
  have hlen := corrLoop_trace_length measure (oD / 2) (precision_threshold fps)
    MAX_SPEED_RETRIES 0 (inD / (oD / 2)) ((oD / 2) / inD) none 0
  constructor
  · exact le_trans hlen (by norm_num [MAX_SPEED_RETRIES])
  · show ((speedup_corrector measure inD oD fps).trace.map
        (fun a => (a.tempo, a.videoPts)) ++ _).length ≤ MAX_SPEED_RETRIES
    rw [List.length_append, List.length_map]
    have h2 : (if (speedup_corrector measure inD oD fps).rerun then
        [((speedup_corrector measure inD oD fps).finalTempo,
          (speedup_corrector measure inD oD fps).finalVideoPts)]
        else []).length ≤ 1 := by
      split <;> simp
    have h3 : ((speedup_corrector measure inD oD fps).trace).length ≤ 4 := by
      exact le_trans hlen (by norm_num)
    simp only [MAX_SPEED_RETRIES]
    omega

/-- Claim C6: with pitch mode disabled the speed-up stage uses exactly
tempo 2.0 and timeScale 0.5, makes exactly one transcoder invocation and
runs no correction loop. -/
theorem spec_c6_nonpitch_fixed_tempo (measure : ℚ → ℚ → ℚ)
    (inD oD fps : ℚ) :
    speedup_stage measure false false inD oD fps =
      .ok ⟨2, 1/2, measure 2 (1/2), [(2, 1/2)], false, none⟩ := rfl

/-- Claim C7 counterexample: the claim says a zero-or-negative probed input
duration makes planning fail with a MeasurementError rather than propagating
a division by zero or proceeding with a degenerate tempo.  In the source
there is no such guard (and no MeasurementError class at all): at input
duration -1 planning succeeds with a negative tempo, and at input duration 0
it propagates the bare ZeroDivisionError. -/
theorem spec_c7_counterexample :
    plan_initial (-1) 10 = .ok (-(1/5 : ℚ), -5) ∧
    plan_initial 0 10 =
      .error "ZeroDivisionError: float division by zero" := by
  constructor
  · norm_num [plan_initial]
  · norm_num [plan_initial]

/-- Claim C7 amended: with a positive target duration, a zero input duration
makes planning raise the (wrapped) ZeroDivisionError, while a negative input
duration is not detected: planning proceeds and hands the corrector a
negative, degenerate tempo D_in / D_target. -/
theorem spec_c7_amended (inD oD : ℚ) (hod : 0 < oD) :
    (inD = 0 → plan_initial inD oD =
      .error "ZeroDivisionError: float division by zero") ∧
    (inD < 0 → plan_initial inD oD = .ok (inD / (oD / 2), (oD / 2) / inD) ∧
      inD / (oD / 2) < 0) := by
  have htg : oD / 2 ≠ 0 := ne_of_gt (by positivity)
  constructor
  · intro h0
    simp [plan_initial, htg, h0]
  · intro hneg
    have hne : inD ≠ 0 := ne_of_lt hneg
    refine ⟨by simp [plan_initial, htg, hne], ?_⟩
    exact div_neg_of_neg_of_pos hneg (by positivity)

/-- Witness for C7 amended at input duration -1 and original duration 10. -/
theorem spec_c7_witness :
    ((0:ℚ) < 10) ∧
    (plan_initial (-1) 10 = .ok ((-1 : ℚ) / (10 / 2), (10 / 2) / (-1)) ∧
      (-1 : ℚ) / (10 / 2) < 0) :=
  ⟨by norm_num, (spec_c7_amended (-1) 10 (by norm_num)).2 (by norm_num)⟩

/-- Claim C8 counterexample: the claim's validity check requires a
non-trivial file size, but the encode stage calls `verify_output_file` with
the default `min_size_kb = 0`, which skips the size check: a candidate whose
output is only about a byte (sizeKb = 1/1000) but probes to a positive
duration is accepted. -/
theorem spec_c8_counterexample :
    overlay_encode tiny_runs one_config =
      .ok ⟨[.deleteStale 0, .invoke 0], some 0⟩ ∧
    (tiny_runs 0).output.sizeKb < 1 := by
  constructor
  · rfl
  · norm_num [tiny_runs]

/-- Claim C8 amended: encoder candidates are tried in list order; before each
tried candidate the stale output is deleted; the first candidate whose
invocation returns 0 and whose output passes the validity check actually used
— file exists and probes to a positive duration (the size check is skipped
because `min_size_kb` defaults to 0) — is accepted with no later candidate
run; exhausting all candidates raises the fatal error. -/
theorem spec_c8_amended (runs : Nat → EncodeRun) (configs : List CodecConfig)
    (i : Nat) :
    (i < configs.length → encode_accepts runs i = true →
      (∀ j, j < i → encode_accepts runs j = false) →
      overlay_encode runs configs = .ok ⟨evlist 0 (i + 1), some i⟩) ∧
    ((∀ j, j < configs.length → encode_accepts runs j = false) →
      overlay_encode runs configs = .error "All codecs failed") := by
  constructor
  · intro hi hacc hprev
    have h := encode_loop_ok runs i configs.length 0 hi
      (by simpa using hacc) (fun j hj => by simpa using hprev j hj)
    simp [overlay_encode, h]
  · intro hall
    have h := encode_loop_none runs configs.length 0
      (fun j hj => by simpa using hall j hj)
    simp [overlay_encode, h]

/-- Witness for C8 amended: the first two candidates fail (bad return code,
then probe failure), the third is accepted, each tried candidate preceded by
a stale-file deletion. -/
theorem spec_c8_witness :
    overlay_encode fallback_runs h264_configs = .ok ⟨evlist 0 3, some 2⟩ :=
  (spec_c8_amended fallback_runs h264_configs 2).1 (by decide) (by decide)
    (by decide)

/-- Claim C9: `get_unique_filename` returns the base output path when free;
otherwise the path with the smallest free numeric suffix starting at 1; and
the search is bounded: when the base and every suffix up to 999 are taken it
raises instead of searching further. -/
theorem spec_c9_unique_filename (taken : String → Bool) (base : String)
    (sm : Bool) (k : Nat) :
    (taken (base ++ get_file_extension sm) = false →
      get_unique_filename taken base sm =
        .ok (base ++ get_file_extension sm, base)) ∧
    (taken (base ++ get_file_extension sm) = true →
      1 ≤ k → k ≤ 999 →
      taken (base ++ "-" ++ toString k ++ get_file_extension sm) = false →
      (∀ j, 1 ≤ j → j < k →
        taken (base ++ "-" ++ toString j ++ get_file_extension sm) = true) →
      get_unique_filename taken base sm =
        .ok (base ++ "-" ++ toString k ++ get_file_extension sm,
          base ++ "-" ++ toString k)) ∧
    (taken (base ++ get_file_extension sm) = true →
      (∀ j, 1 ≤ j → j ≤ 999 →
        taken (base ++ "-" ++ toString j ++ get_file_extension sm) = true) →
      get_unique_filename taken base sm =
        .error "Too many duplicate files") := by
  refine ⟨?_, ?_, ?_⟩
  · intro hfree
    simp [get_unique_filename, hfree]
  · intro htaken hk1 hk999 hfree hprev
    simp only [get_unique_filename, htaken]
    rw [if_neg (by simp)]
    exact unique_from_finds taken base (get_file_extension sm) k 999 1
      hk1 hk999 (by omega) hfree (fun j hj1 hj2 => hprev j hj1 hj2)
  · intro htaken hall
    simp only [get_unique_filename, htaken]
    rw [if_neg (by simp)]
    exact unique_from_exhaust taken base (get_file_extension sm) 999 1
      (le_refl 1) (by omega) (by omega)
      (fun j hj1 hj2 => hall j hj1 hj2)

/-- Witness for C9: with the base path and suffix 1 taken, suffix 2 is
returned. -/
theorem spec_c9_witness :
    get_unique_filename collide_two "export-1" false =
      .ok ("export-1" ++ "-" ++ toString 2 ++ get_file_extension false,
        "export-1" ++ "-" ++ toString 2) :=
  (spec_c9_unique_filename collide_two "export-1" false 2).2.1
    (by decide) (by decide) (by decide) (by decide) (by decide)

/-- Claim C10: the tempo and timeScale clamps apply only to correction-step
parameters: for every input, the first attempt runs with exactly the
unclamped initial plan tempo D_in / D_target and timeScale D_target / D_in —
in particular out-of-range values, whether below the 0.5 clamp floor or above
the 100.0 ceiling, are passed through unchanged. -/
theorem spec_c10_initial_plan_unclamped (measure : ℚ → ℚ → ℚ)
    (inD oD fps : ℚ) :
    ((speedup_corrector measure inD oD fps).calls).head? =
      some (inD / (oD / 2), (oD / 2) / inD) := by
  have hh := corrLoop_trace_head measure (oD / 2) (precision_threshold fps)
    9 0 (inD / (oD / 2)) ((oD / 2) / inD) none 0
  show ((corrLoop measure (oD / 2) (precision_threshold fps)
      MAX_SPEED_RETRIES 0 (inD / (oD / 2)) ((oD / 2) / inD) none 0).calls).head?
    = some (inD / (oD / 2), (oD / 2) / inD)
  rw [show MAX_SPEED_RETRIES = 9 + 1 from rfl]
  rcases htr : (corrLoop measure (oD / 2) (precision_threshold fps) (9 + 1) 0
      (inD / (oD / 2)) ((oD / 2) / inD) none 0).trace with _ | ⟨x, rest⟩
  · rw [htr] at hh
    simp at hh
  · rw [htr] at hh
    simp only [List.head?_cons, Option.some.injEq] at hh
    simp [CorrResult.calls, htr, hh]

/-- Witness for C10 at out-of-range inputs on both sides: input 1 with
original 40 gives an initial tempo of 1/20, below the 0.5 clamp floor, and
input 2000 with original 20 gives an initial tempo of 200, above the 100.0
ceiling; both are passed to the first attempt unchanged. -/
theorem spec_c10_witness :
    (((speedup_corrector measure_exact 1 40 30).calls).head? =
      some ((1:ℚ) / (40 / 2), ((40:ℚ) / 2) / 1)) ∧
    (((speedup_corrector measure_exact 2000 20 30).calls).head? =
      some ((2000:ℚ) / (20 / 2), ((20:ℚ) / 2) / 2000)) ∧
    (1:ℚ) / (40 / 2) < 1/2 ∧ (100:ℚ) < 2000 / (20 / 2) :=
  ⟨spec_c10_initial_plan_unclamped measure_exact 1 40 30,
   spec_c10_initial_plan_unclamped measure_exact 2000 20 30,
   by norm_num, by norm_num⟩
